import Mathlib

/-!
Shallow embedding of `src/src/mysql.rs` from the `sqlx-to-json` repository:
the MySQL row/value to JSON conversion (`rows_to_json`, `row_value_to_json`),
together with theorems checking the specification's claims about it.
-/

set_option maxRecDepth 4000

namespace SqlxToJson

/-- A 64-bit IEEE float, abstracted to the cases that matter for JSON
conversion: a finite value (carried as a rational), NaN, or an infinity.
`f32` values are widened exactly to this domain before conversion. -/
inductive F64 where
  | finite (q : Rat)
  | nan
  | inf
  | negInf
deriving DecidableEq, Repr

/-- A `serde_json` number: produced from an `i64`, a `u64`, or a finite
float (cf. `serde_json::Number`). -/
inductive JNum where
  | int (i : Int)
  | uint (n : Nat)
  | float (f : F64)
deriving DecidableEq, Repr

/-- A `serde_json::Value`. Objects are association lists; for the claims
at hand only the value tree structure matters. -/
inductive JsonValue where
  | null
  | bool (b : Bool)
  | num (n : JNum)
  | str (s : String)
  | arr (xs : List JsonValue)
  | obj (fs : List (String × JsonValue))

/-- Model of `serde_json::Number::from_f64`: succeeds exactly on finite floats. -/
def numberFromF64 : F64 → Option JNum
  | .finite q => some (.float (.finite q))
  | .nan => none
  | .inf => none
  | .negInf => none

/-- Model of `serde_json::Value::from(f: f64)` (and, after exact widening,
`from(f: f32)`): a finite float becomes a JSON number, a non-finite
float becomes JSON null. -/
def jsonFromF64 (f : F64) : JsonValue :=
  match numberFromF64 f with
  | some n => .num n
  | none => .null

/-- Model of `time::Date`, abstracted to its `Display` rendering. -/
structure MySqlDate where
  render : String
deriving DecidableEq, Repr

/-- Model of `time::Time`, abstracted to its `Display` rendering. -/
structure MySqlTime where
  render : String
deriving DecidableEq, Repr

/-- Model of `time::PrimitiveDateTime`, abstracted to its `Display` rendering. -/
structure MySqlDateTime where
  render : String
deriving DecidableEq, Repr

/-- Model of `time::OffsetDateTime`, abstracted to its `Display` rendering. -/
structure MySqlTimestamp where
  render : String
deriving DecidableEq, Repr

/-- The opaque payload of one raw MySQL cell, accessible only through the
typed decode attempts the source performs (`try_decode::<T>()`): each field
is `some v` when that typed decode would succeed with `v`, `none` when it
would fail. Bytes are `u8` (`Fin 256`); `i64`/`u64` values are carried as
`Int`/`Nat`. -/
structure Payload where
  decodeString : Option String
  decodeF32 : Option F64
  decodeF64 : Option F64
  decodeI64 : Option Int
  decodeU64 : Option Nat
  decodeBool : Option Bool
  decodeDate : Option MySqlDate
  decodeTime : Option MySqlTime
  decodeDateTime : Option MySqlDateTime
  decodeTimestamp : Option MySqlTimestamp
  decodeJson : Option JsonValue
  decodeBytes : Option (List (Fin 256))

/-- Model of `sqlx::mysql::MySqlValueRef`: a nullability flag, the reported type
name (`type_info().name()`), and the opaque payload. -/
structure MySqlValueRef where
  typeName : String
  isNull : Bool
  payload : Payload

/-- Conversion of a `u8` to a `serde_json` number (`n.into()` in the blob branch). -/
def byteToJson (b : Fin 256) : JsonValue :=
  .num (.uint b.val)

/-- The `if let Ok(v) = ...try_decode() { ... } else { JsonValue::Null }`
pattern shared by every recognized branch: apply `f` to the decoded value,
degrade to JSON null when the typed decode failed. The `JSON` branch's
`unwrap_or_default()` is the same pattern with `f = id`, since
`JsonValue::default()` is null. -/
def decodeOr (o : Option α) (f : α → JsonValue) : JsonValue :=
  match o with
  | some v => f v
  | none => .null

/-- Embedding of `row_value_to_json` (src/src/mysql.rs lines 60-150):
null short-circuit, then dispatch on the reported type name; recognized
categories degrade to JSON null when the typed decode fails; the catch-all
returns the unsupported-type error. -/
def row_value_to_json (rv : MySqlValueRef) : Except String JsonValue :=
  if rv.isNull then .ok .null
  else
    match rv.typeName with
    | "CHAR" | "VARCHAR" | "TINYTEXT" | "TEXT" | "MEDIUMTEXT" | "LONGTEXT" | "ENUM" =>
      .ok (decodeOr rv.payload.decodeString (fun v => .str v))
    | "FLOAT" =>
      .ok (decodeOr rv.payload.decodeF32 (fun v => jsonFromF64 v))
    | "DOUBLE" =>
      .ok (decodeOr rv.payload.decodeF64 (fun v => jsonFromF64 v))
    | "TINYINT" | "SMALLINT" | "INT" | "MEDIUMINT" | "BIGINT" =>
      .ok (decodeOr rv.payload.decodeI64 (fun v => .num (.int v)))
    | "TINYINT UNSIGNED" | "SMALLINT UNSIGNED" | "INT UNSIGNED" | "MEDIUMINT UNSIGNED"
    | "BIGINT UNSIGNED" | "YEAR" =>
      .ok (decodeOr rv.payload.decodeU64 (fun v => .num (.uint v)))
    | "BOOLEAN" =>
      .ok (decodeOr rv.payload.decodeBool (fun v => .bool v))
    | "DATE" =>
      .ok (decodeOr rv.payload.decodeDate (fun v => .str v.render))
    | "TIME" =>
      .ok (decodeOr rv.payload.decodeTime (fun v => .str v.render))
    | "DATETIME" =>
      .ok (decodeOr rv.payload.decodeDateTime (fun v => .str v.render))
    | "TIMESTAMP" =>
      .ok (decodeOr rv.payload.decodeTimestamp (fun v => .str v.render))
    | "JSON" =>
      .ok (decodeOr rv.payload.decodeJson (fun v => v))
    | "TINIYBLOB" | "MEDIUMBLOB" | "BLOB" | "LONGBLOB" =>
      .ok (decodeOr rv.payload.decodeBytes (fun v => .arr (v.map byteToJson)))
    | "NULL" => .ok .null
    | other => .error ("Unsupported type: " ++ other)

/-- A result-set column (`sqlx::Column`): only its name is consulted. -/
structure Column where
  name : String
deriving DecidableEq, Repr

/-- Model of `sqlx::mysql::MySqlRow`: the column metadata and, per column index,
the outcome of `try_get_raw` (which can fail with a transport-level
error, modelled as the error's rendered string). -/
structure MySqlRow where
  columns : List Column
  raws : List (Except String MySqlValueRef)

/-- Model of `row.try_get_raw(i)`. -/
def MySqlRow.try_get_raw (r : MySqlRow) (i : Nat) : Except String MySqlValueRef :=
  match r.raws[i]? with
  | some res => res
  | none => .error "ColumnIndexOutOfBounds"

/-- The per-row map `HashMap<String, JsonValue>`, modelled extensionally
as an association list with at most one entry per key. -/
abbrev RowMap := List (String × JsonValue)

/-- Model of `HashMap::insert`: replace any existing entry for the key, then add
the new binding. -/
def RowMap.insert (m : RowMap) (k : String) (v : JsonValue) : RowMap :=
  (List.filter (fun p => p.1 ≠ k) m) ++ [(k, v)]

/-- Lookup in the style of `HashMap::get`. -/
def RowMap.find (m : RowMap) (n : String) : Option JsonValue :=
  (List.find? (fun p => p.1 = n) m).map (fun p => p.2)

/-- The body of one column-loop iteration up to the map insert: fetch the
raw value at index `i` (`row.try_get_raw(i).map_err(..)?`), then decode it
(`row_value_to_json(..).map_err(..)?`); either error aborts. The
`map_err(|e| e.to_string())` steps are the identity in this embedding,
where driver errors are already carried as their rendered strings. -/
def cellDecode (r : MySqlRow) (i : Nat) : Except String JsonValue :=
  match r.try_get_raw i with
  | .error e => .error e
  | .ok rv => row_value_to_json rv

/-- The inner column loop of `rows_to_json`: walk the columns with their
indices, fetch and decode each raw value, and insert under the column
name; any error aborts. -/
def assembleCols (r : MySqlRow) : List Column → Nat → RowMap → Except String RowMap
  | [], _, m => .ok m
  | c :: cols, i, m =>
    match cellDecode r i with
    | .error e => .error e
    | .ok v => assembleCols r cols (i + 1) (RowMap.insert m c.name v)

/-- One iteration of the outer row loop: build one row's map. -/
def assembleRow (r : MySqlRow) : Except String RowMap :=
  assembleCols r r.columns 0 []

/-- The outer row loop of `rows_to_json`. -/
def rowsLoop : List MySqlRow → Except String (List RowMap)
  | [] => .ok []
  | r :: rs =>
    match assembleRow r with
    | .error e => .error e
    | .ok m =>
      match rowsLoop rs with
      | .error e => .error e
      | .ok rest => .ok (m :: rest)

/-- Embedding of `rows_to_json` (src/src/mysql.rs lines 18-38): explicit
empty fast path, then the row loop. -/
def rows_to_json (rows : List MySqlRow) : Except String (List RowMap) :=
  if rows.isEmpty then .ok []
  else rowsLoop rows

/-- The reported type names with an entry in the dispatch table (every
arm of the `match` except the catch-all). -/
def supportedTypeNames : List String :=
  ["CHAR", "VARCHAR", "TINYTEXT", "TEXT", "MEDIUMTEXT", "LONGTEXT", "ENUM",
   "FLOAT", "DOUBLE",
   "TINYINT", "SMALLINT", "INT", "MEDIUMINT", "BIGINT",
   "TINYINT UNSIGNED", "SMALLINT UNSIGNED", "INT UNSIGNED", "MEDIUMINT UNSIGNED",
   "BIGINT UNSIGNED", "YEAR",
   "BOOLEAN", "DATE", "TIME", "DATETIME", "TIMESTAMP", "JSON",
   "TINIYBLOB", "MEDIUMBLOB", "BLOB", "LONGBLOB", "NULL"]

/-- The names of the signed-integer dispatch arm. -/
def signedIntTypeNames : List String :=
  ["TINYINT", "SMALLINT", "INT", "MEDIUMINT", "BIGINT"]

/-- The names of the unsigned-integer/year dispatch arm. -/
def unsignedIntTypeNames : List String :=
  ["TINYINT UNSIGNED", "SMALLINT UNSIGNED", "INT UNSIGNED", "MEDIUMINT UNSIGNED",
   "BIGINT UNSIGNED", "YEAR"]

/-- The names of the binary-blob dispatch arm (note the transposed
spelling of the tiny variant, exactly as in the source). -/
def blobTypeNames : List String :=
  ["TINIYBLOB", "MEDIUMBLOB", "BLOB", "LONGBLOB"]

/-- The names of the text dispatch arm. -/
def textTypeNames : List String :=
  ["CHAR", "VARCHAR", "TINYTEXT", "TEXT", "MEDIUMTEXT", "LONGTEXT", "ENUM"]

/-- Whether the typed decode attempt consulted by the dispatch arm for
type name `n` fails on payload `p` (the explicit null-type marker
consults no decode and always yields null, so it counts as trivially
degraded). -/
def consultedDecodeFailed (n : String) (p : Payload) : Bool :=
  match n with
  | "CHAR" | "VARCHAR" | "TINYTEXT" | "TEXT" | "MEDIUMTEXT" | "LONGTEXT" | "ENUM" =>
    p.decodeString.isNone
  | "FLOAT" => p.decodeF32.isNone
  | "DOUBLE" => p.decodeF64.isNone
  | "TINYINT" | "SMALLINT" | "INT" | "MEDIUMINT" | "BIGINT" => p.decodeI64.isNone
  | "TINYINT UNSIGNED" | "SMALLINT UNSIGNED" | "INT UNSIGNED" | "MEDIUMINT UNSIGNED"
  | "BIGINT UNSIGNED" | "YEAR" => p.decodeU64.isNone
  | "BOOLEAN" => p.decodeBool.isNone
  | "DATE" => p.decodeDate.isNone
  | "TIME" => p.decodeTime.isNone
  | "DATETIME" => p.decodeDateTime.isNone
  | "TIMESTAMP" => p.decodeTimestamp.isNone
  | "JSON" => p.decodeJson.isNone
  | "TINIYBLOB" | "MEDIUMBLOB" | "BLOB" | "LONGBLOB" => p.decodeBytes.isNone
  | "NULL" => true
  | _ => false

/-- Is a JSON number free of NaN/Infinity? -/
def numFinite : JNum → Bool
  | .int _ => true
  | .uint _ => true
  | .float (.finite _) => true
  | .float .nan => false
  | .float .inf => false
  | .float .negInf => false

mutual

/-- No number anywhere in the JSON value tree is NaN or an infinity. -/
def jsonFinite : JsonValue → Bool
  | .null => true
  | .bool _ => true
  | .str _ => true
  | .num n => numFinite n
  | .arr xs => jsonListFinite xs
  | .obj fs => jsonObjFinite fs

/-- Conjunction of `jsonFinite` over a list of array elements. -/
def jsonListFinite : List JsonValue → Bool
  | [] => true
  | x :: xs => jsonFinite x && jsonListFinite xs

/-- Conjunction of `jsonFinite` over the values of object fields. -/
def jsonObjFinite : List (String × JsonValue) → Bool
  | [] => true
  | f :: fs => jsonFinite f.2 && jsonObjFinite fs

end

/-- The index of the LAST column named `n` (the later duplicate wins
on insert). -/
def lastNameIdx (n : String) : List Column → Option Nat
  | [] => none
  | c :: cols =>
    match lastNameIdx n cols with
    | some j => some (j + 1)
    | none => if c.name = n then some 0 else none

def emptyPayload : Payload :=
  ⟨none, none, none, none, none, none, none, none, none, none, none, none⟩

def geometryValue : MySqlValueRef := ⟨"GEOMETRY", false, emptyPayload⟩

def varcharValue : MySqlValueRef :=
  ⟨"VARCHAR", false, { emptyPayload with decodeString := some "x" }⟩

def corruptIntValue : MySqlValueRef := ⟨"INT", false, emptyPayload⟩

def blobValue : MySqlValueRef :=
  ⟨"BLOB", false, { emptyPayload with decodeBytes := some [0, 255, 16] }⟩

def jsonObjectValue : MySqlValueRef :=
  ⟨"JSON", false, { emptyPayload with decodeJson := some (.obj [("a", .num (.int 1))]) }⟩

def jsonCorruptValue : MySqlValueRef := ⟨"JSON", false, emptyPayload⟩

def bigintMinValue : MySqlValueRef :=
  ⟨"BIGINT", false, { emptyPayload with decodeI64 := some (-9223372036854775808) }⟩

def ubigintMaxValue : MySqlValueRef :=
  ⟨"BIGINT UNSIGNED", false, { emptyPayload with decodeU64 := some 18446744073709551615 }⟩

def doubleNanValue : MySqlValueRef :=
  ⟨"DOUBLE", false, { emptyPayload with decodeF64 := some .nan }⟩

def dupIntOne : MySqlValueRef :=
  ⟨"INT", false, { emptyPayload with decodeI64 := some 1 }⟩

def dupIntTwo : MySqlValueRef :=
  ⟨"INT", false, { emptyPayload with decodeI64 := some 2 }⟩

def dupRow : MySqlRow := ⟨[⟨"a"⟩, ⟨"a"⟩], [.ok dupIntOne, .ok dupIntTwo]⟩

def probePayload : Payload := { emptyPayload with decodeBytes := some [0] }

def tiniyblobValue : Payload := { emptyPayload with decodeBytes := some [16] }

theorem decodeOr_some (f : α → JsonValue) (v : α) : decodeOr (some v) f = f v := rfl

theorem decodeOr_none (f : α → JsonValue) : decodeOr none f = .null := rfl

/-- The catch-all arm: a non-null value whose reported type name is not in
the dispatch table yields the unsupported-type error carrying the name. -/
theorem unsupported_hard_error (rv : MySqlValueRef) (hnull : rv.isNull = false)
    (hs : rv.typeName ∉ supportedTypeNames) :
    row_value_to_json rv = .error ("Unsupported type: " ++ rv.typeName) := by
  unfold row_value_to_json
  rw [hnull]
  simp only [Bool.false_eq_true, if_false]
  split
  all_goals first
    | rfl
    | (exfalso; apply hs; simp_all [supportedTypeNames])

/-- Every recognized arm degrades to JSON null when its typed decode
attempt fails. -/
theorem soft_failure (rv : MySqlValueRef) (hnull : rv.isNull = false)
    (hsup : rv.typeName ∈ supportedTypeNames)
    (hfail : consultedDecodeFailed rv.typeName rv.payload = true) :
    row_value_to_json rv = .ok .null := by
  unfold row_value_to_json
  rw [hnull]
  simp only [Bool.false_eq_true, if_false]
  split
  all_goals first
    | rfl
    | (rename_i heq; rw [heq] at hfail
       rw [Option.isNone_iff_eq_none.mp (show rv.payload.decodeString.isNone = true from hfail)]; rfl)
    | (rename_i heq; rw [heq] at hfail
       rw [Option.isNone_iff_eq_none.mp (show rv.payload.decodeF32.isNone = true from hfail)]; rfl)
    | (rename_i heq; rw [heq] at hfail
       rw [Option.isNone_iff_eq_none.mp (show rv.payload.decodeF64.isNone = true from hfail)]; rfl)
    | (rename_i heq; rw [heq] at hfail
       rw [Option.isNone_iff_eq_none.mp (show rv.payload.decodeI64.isNone = true from hfail)]; rfl)
    | (rename_i heq; rw [heq] at hfail
       rw [Option.isNone_iff_eq_none.mp (show rv.payload.decodeU64.isNone = true from hfail)]; rfl)
    | (rename_i heq; rw [heq] at hfail
       rw [Option.isNone_iff_eq_none.mp (show rv.payload.decodeBool.isNone = true from hfail)]; rfl)
    | (rename_i heq; rw [heq] at hfail
       rw [Option.isNone_iff_eq_none.mp (show rv.payload.decodeDate.isNone = true from hfail)]; rfl)
    | (rename_i heq; rw [heq] at hfail
       rw [Option.isNone_iff_eq_none.mp (show rv.payload.decodeTime.isNone = true from hfail)]; rfl)
    | (rename_i heq; rw [heq] at hfail
       rw [Option.isNone_iff_eq_none.mp (show rv.payload.decodeDateTime.isNone = true from hfail)]; rfl)
    | (rename_i heq; rw [heq] at hfail
       rw [Option.isNone_iff_eq_none.mp (show rv.payload.decodeTimestamp.isNone = true from hfail)]; rfl)
    | (rename_i heq; rw [heq] at hfail
       rw [Option.isNone_iff_eq_none.mp (show rv.payload.decodeJson.isNone = true from hfail)]; rfl)
    | (rename_i heq; rw [heq] at hfail
       rw [Option.isNone_iff_eq_none.mp (show rv.payload.decodeBytes.isNone = true from hfail)]; rfl)
    | (exfalso; simp_all [supportedTypeNames])

/-- The signed-integer arm, characterized as a function of the payload. -/
theorem int_branch_eq (name : String) (hname : name ∈ signedIntTypeNames) (p : Payload) :
    row_value_to_json ⟨name, false, p⟩
      = .ok (decodeOr p.decodeI64 (fun v => .num (.int v))) := by
  simp only [signedIntTypeNames, List.mem_cons, List.not_mem_nil, or_false] at hname
  rcases hname with rfl | rfl | rfl | rfl | rfl <;> rfl

/-- The unsigned-integer/year arm, characterized as a function of the payload. -/
theorem uint_branch_eq (name : String) (hname : name ∈ unsignedIntTypeNames) (p : Payload) :
    row_value_to_json ⟨name, false, p⟩
      = .ok (decodeOr p.decodeU64 (fun v => .num (.uint v))) := by
  simp only [unsignedIntTypeNames, List.mem_cons, List.not_mem_nil, or_false] at hname
  rcases hname with rfl | rfl | rfl | rfl | rfl | rfl <;> rfl

/-- The binary-blob arm, characterized as a function of the payload. -/
theorem blob_branch_eq (name : String) (hname : name ∈ blobTypeNames) (p : Payload) :
    row_value_to_json ⟨name, false, p⟩
      = .ok (decodeOr p.decodeBytes (fun v => .arr (v.map byteToJson))) := by
  simp only [blobTypeNames, List.mem_cons, List.not_mem_nil, or_false] at hname
  rcases hname with rfl | rfl | rfl | rfl <;> rfl

/-- The native-JSON arm, characterized as a function of the payload. -/
theorem json_branch_eq (p : Payload) :
    row_value_to_json ⟨"JSON", false, p⟩
      = .ok (decodeOr p.decodeJson (fun v => v)) := rfl

theorem find_insert_self (m : RowMap) (k : String) (v : JsonValue) :
    RowMap.find (RowMap.insert m k v) k = some v := by
  unfold RowMap.find RowMap.insert
  induction m with
  | nil => simp
  | cons p m ih =>
    by_cases hp : p.1 = k
    · simp [hp]
    · simp [hp]

theorem find_insert_ne (m : RowMap) (k n : String) (v : JsonValue) (hne : n ≠ k) :
    RowMap.find (RowMap.insert m k v) n = RowMap.find m n := by
  have hkn : ¬ k = n := fun h => hne h.symm
  unfold RowMap.find RowMap.insert
  induction m with
  | nil => simp [hkn]
  | cons p m ih =>
    by_cases hp : p.1 = k
    · have hpn : ¬ p.1 = n := by rw [hp]; exact hkn
      rw [List.filter_cons_of_neg (by simp [hp]), List.find?_cons_of_neg _ (by simp [hpn])]
      exact ih
    · by_cases hn : p.1 = n
      · rw [List.filter_cons_of_pos (by simp [hp]), List.cons_append,
          List.find?_cons_of_pos _ (by simp [hn]), List.find?_cons_of_pos _ (by simp [hn])]
      · rw [List.filter_cons_of_pos (by simp [hp]), List.cons_append,
          List.find?_cons_of_neg _ (by simp [hn]), List.find?_cons_of_neg _ (by simp [hn])]
        exact ih

theorem countP_insert_self (m : RowMap) (k : String) (v : JsonValue) :
    List.countP (fun p => p.1 = k) (RowMap.insert m k v) = 1 := by
  unfold RowMap.insert
  induction m with
  | nil => simp
  | cons p m ih =>
    by_cases hp : p.1 = k
    · rw [List.filter_cons_of_neg (by simp [hp])]
      exact ih
    · rw [List.filter_cons_of_pos (by simp [hp]), List.cons_append, List.countP_cons]
      simp [hp, ih]

theorem countP_filter_ne (m : List (String × JsonValue)) (k n : String) (hkn : ¬ k = n) :
    List.countP (fun p => p.1 = n) (List.filter (fun p => p.1 ≠ k) m)
      = List.countP (fun p => p.1 = n) m := by
  simp only [decide_not]
  induction m with
  | nil => rfl
  | cons p m ih =>
    by_cases hp : p.1 = k
    · have hpn : ¬ p.1 = n := by rw [hp]; exact hkn
      rw [List.filter_cons_of_neg (by simp [hp]), List.countP_cons]
      simp [hpn, ih]
    · rw [List.filter_cons_of_pos (by simp [hp]), List.countP_cons, List.countP_cons]
      simp [ih]

theorem countP_insert_ne (m : RowMap) (k n : String) (v : JsonValue) (hne : n ≠ k) :
    List.countP (fun p => p.1 = n) (RowMap.insert m k v)
      = List.countP (fun p => p.1 = n) m := by
  have hkn : ¬ k = n := fun h => hne h.symm
  unfold RowMap.insert
  rw [List.countP_append, countP_filter_ne m k n hkn]
  simp [hkn]

theorem lastNameIdx_eq_none_iff (n : String) (cols : List Column) :
    lastNameIdx n cols = none ↔ ∀ c ∈ cols, c.name ≠ n := by
  induction cols with
  | nil => simp [lastNameIdx]
  | cons c cols ih =>
    unfold lastNameIdx
    cases h : lastNameIdx n cols with
    | some j =>
      simp only [h]
      constructor
      · intro habs; exact Option.noConfusion habs
      · intro hall
        have hnone : lastNameIdx n cols = none :=
          ih.mpr (fun d hd => hall d (List.mem_cons_of_mem c hd))
        rw [h] at hnone
        exact Option.noConfusion hnone
    | none =>
      simp only [h]
      by_cases hc : c.name = n
      · rw [if_pos hc]
        constructor
        · intro habs; exact Option.noConfusion habs
        · intro hall; exact absurd hc (hall c (List.mem_cons_self c cols))
      · rw [if_neg hc]
        constructor
        · intro _ d hd
          rcases List.mem_cons.mp hd with rfl | hd2
          · exact hc
          · exact (ih.mp h) d hd2
        · intro _; rfl

theorem lastNameIdx_some_mem (n : String) (cols : List Column) (j : Nat)
    (h : lastNameIdx n cols = some j) : ∃ c ∈ cols, c.name = n := by
  induction cols generalizing j with
  | nil => exact Option.noConfusion h
  | cons c cols ih =>
    unfold lastNameIdx at h
    cases hc : lastNameIdx n cols with
    | some j2 =>
      obtain ⟨d, hd, hdn⟩ := ih j2 hc
      exact ⟨d, List.mem_cons_of_mem c hd, hdn⟩
    | none =>
      rw [hc] at h
      by_cases hcn : c.name = n
      · exact ⟨c, List.mem_cons_self c cols, hcn⟩
      · rw [if_neg hcn] at h; exact Option.noConfusion h

theorem lastNameIdx_append_last (n : String) (cs1 cs2 : List Column) (c : Column)
    (hc : c.name = n) (h2 : ∀ d ∈ cs2, d.name ≠ n) :
    lastNameIdx n (cs1 ++ c :: cs2) = some cs1.length := by
  induction cs1 with
  | nil =>
    rw [List.nil_append]
    unfold lastNameIdx
    simp only [(lastNameIdx_eq_none_iff n cs2).mpr h2]
    rw [if_pos hc]
    rfl
  | cons d cs1 ih =>
    rw [List.cons_append]
    unfold lastNameIdx
    simp only [ih]
    simp [List.length_cons]

theorem assembleCols_cons_eq (r : MySqlRow) (c : Column) (cols : List Column) (i : Nat)
    (m : RowMap) :
    assembleCols r (c :: cols) i m =
      match cellDecode r i with
      | .error e => .error e
      | .ok v => assembleCols r cols (i + 1) (RowMap.insert m c.name v) := rfl

theorem assembleCols_invariant (r : MySqlRow) (cols : List Column) (i : Nat) (m0 m : RowMap)
    (h : assembleCols r cols i m0 = .ok m) (n : String) :
    (lastNameIdx n cols = none →
       RowMap.find m n = RowMap.find m0 n ∧
       List.countP (fun p => p.1 = n) m = List.countP (fun p => p.1 = n) m0) ∧
    (∀ j, lastNameIdx n cols = some j →
       ∃ v, cellDecode r (i + j) = .ok v ∧ RowMap.find m n = some v ∧
         List.countP (fun p => p.1 = n) m = 1) := by
  induction cols generalizing i m0 with
  | nil =>
    have hm : m0 = m := Except.ok.inj h
    subst hm
    constructor
    · intro _; exact ⟨rfl, rfl⟩
    · intro j hj; exact absurd hj (by simp [lastNameIdx])
  | cons c cols ih =>
    rw [assembleCols_cons_eq] at h
    cases hc : cellDecode r i with
    | error e =>
      simp only [hc] at h
      exact Except.noConfusion h
    | ok v =>
      simp only [hc] at h
      have IH := ih (i + 1) (RowMap.insert m0 c.name v) h
      constructor
      · intro hnone
        have hsplit : lastNameIdx n cols = none ∧ ¬ c.name = n := by
          unfold lastNameIdx at hnone
          cases h2 : lastNameIdx n cols with
          | some j => rw [h2] at hnone; exact Option.noConfusion hnone
          | none =>
            rw [h2] at hnone
            by_cases hcn : c.name = n
            · rw [if_pos hcn] at hnone; exact Option.noConfusion hnone
            · exact ⟨rfl, hcn⟩
        obtain ⟨hcols, hcn⟩ := hsplit
        obtain ⟨hfind, hcount⟩ := IH.1 hcols
        constructor
        · rw [hfind, find_insert_ne _ _ _ _ (fun hh => hcn hh.symm)]
        · rw [hcount, countP_insert_ne _ _ _ _ (fun hh => hcn hh.symm)]
      · intro j hj
        unfold lastNameIdx at hj
        cases h2 : lastNameIdx n cols with
        | some j2 =>
          rw [h2] at hj
          have hjj : j = j2 + 1 := (Option.some.inj hj).symm
          subst hjj
          obtain ⟨w, hw, hfind, hcount⟩ := IH.2 j2 h2
          refine ⟨w, ?_, hfind, hcount⟩
          rw [show i + (j2 + 1) = (i + 1) + j2 by omega]
          exact hw
        | none =>
          rw [h2] at hj
          by_cases hcn : c.name = n
          · rw [if_pos hcn] at hj
            have hj0 : j = 0 := (Option.some.inj hj).symm
            subst hj0
            obtain ⟨hfind, hcount⟩ := IH.1 h2
            refine ⟨v, hc, ?_, ?_⟩
            · rw [hfind, hcn]
              exact find_insert_self m0 n v
            · rw [hcount, hcn, countP_insert_self]
          · rw [if_neg hcn] at hj; exact Option.noConfusion hj

theorem assembleCols_abort (r : MySqlRow) (cols : List Column) (i : Nat) (m : RowMap)
    (j : Nat) (e : String) (hj : j < cols.length)
    (hprev : ∀ l, l < j → ∃ v, cellDecode r (i + l) = .ok v)
    (herr : cellDecode r (i + j) = .error e) :
    assembleCols r cols i m = .error e := by
  induction cols generalizing i m j with
  | nil => exact absurd hj (by simp)
  | cons c cols ih =>
    rw [assembleCols_cons_eq]
    cases j with
    | zero =>
      have herr2 : cellDecode r i = .error e := herr
      simp only [herr2]
    | succ j =>
      obtain ⟨v, hv⟩ := hprev 0 (Nat.succ_pos j)
      have hv2 : cellDecode r i = .ok v := hv
      simp only [hv2]
      apply ih (i + 1) (RowMap.insert m c.name v) j (Nat.lt_of_succ_lt_succ hj)
      · intro l hl
        obtain ⟨w, hw⟩ := hprev (l + 1) (Nat.succ_lt_succ hl)
        refine ⟨w, ?_⟩
        rw [show (i + 1) + l = i + (l + 1) by omega]
        exact hw
      · rw [show (i + 1) + j = i + (j + 1) by omega]
        exact herr

theorem rowsLoop_length_get (rows : List MySqlRow) (out : List RowMap)
    (h : rowsLoop rows = .ok out) :
    out.length = rows.length ∧
    ∀ k (hk : k < rows.length) (hk2 : k < out.length),
      assembleRow (rows.get ⟨k, hk⟩) = .ok (out.get ⟨k, hk2⟩) := by
  induction rows generalizing out with
  | nil =>
    have hout : [] = out := Except.ok.inj h
    subst hout
    exact ⟨rfl, fun k hk => absurd hk (by simp)⟩
  | cons r rs ih =>
    unfold rowsLoop at h
    cases ha : assembleRow r with
    | error e => rw [ha] at h; exact Except.noConfusion h
    | ok m =>
      rw [ha] at h
      cases hl : rowsLoop rs with
      | error e => rw [hl] at h; exact Except.noConfusion h
      | ok rest =>
        rw [hl] at h
        have hout : m :: rest = out := Except.ok.inj h
        subst hout
        obtain ⟨hlen, hget⟩ := ih rest hl
        refine ⟨by simp [hlen], ?_⟩
        intro k hk hk2
        cases k with
        | zero => simpa using ha
        | succ k => exact hget k (Nat.lt_of_succ_lt_succ hk) (Nat.lt_of_succ_lt_succ hk2)

theorem rowsLoop_abort (pre post : List MySqlRow) (r : MySqlRow) (e : String)
    (hpre : ∀ p ∈ pre, ∃ m, assembleRow p = .ok m)
    (herr : assembleRow r = .error e) :
    rowsLoop (pre ++ r :: post) = .error e := by
  induction pre with
  | nil =>
    rw [List.nil_append]
    unfold rowsLoop
    rw [herr]
  | cons q pre ih =>
    rw [List.cons_append]
    unfold rowsLoop
    obtain ⟨m, hm⟩ := hpre q (List.mem_cons_self q pre)
    rw [hm, ih (fun p hp => hpre p (List.mem_cons_of_mem q hp))]

theorem rows_to_json_ok_loop (rows : List MySqlRow) (out : List RowMap)
    (h : rows_to_json rows = .ok out) : rowsLoop rows = .ok out := by
  unfold rows_to_json at h
  by_cases he : rows.isEmpty
  · rw [if_pos he] at h
    have hout : [] = out := Except.ok.inj h
    subst hout
    rw [List.isEmpty_iff.mp he]
    rfl
  · rw [if_neg he] at h
    exact h

theorem rows_to_json_ne_nil (rows : List MySqlRow) (hne : rows ≠ []) :
    rows_to_json rows = rowsLoop rows := by
  unfold rows_to_json
  rw [if_neg (by simpa [List.isEmpty_iff] using hne)]

/-- C2: a null raw value decodes to JSON null regardless of the reported
type name; the dispatch is never consulted. -/
theorem claim2_null_short_circuit (rv : MySqlValueRef) (h : rv.isNull = true) :
    row_value_to_json rv = .ok .null := by
  unfold row_value_to_json
  rw [h]
  rfl

theorem claim2_null_short_circuit_witness :
    row_value_to_json ⟨"GEOMETRY", true, emptyPayload⟩ = .ok .null :=
  claim2_null_short_circuit ⟨"GEOMETRY", true, emptyPayload⟩ rfl

/-- C8: empty input: empty output, no error. -/
theorem claim8_empty_fast_path : rows_to_json [] = .ok [] := rfl

/-- C1: an unsupported type name on a non-null reachable cell makes
row_value_to_json fail with the unsupported-type error carrying the name,
and rows_to_json returns exactly that error (no output, no partial
results). -/
theorem claim1_unsupported_type_aborts
    (pre post : List MySqlRow) (r : MySqlRow) (j : Nat) (rv : MySqlValueRef)
    (hpre : ∀ p ∈ pre, ∃ m, assembleRow p = .ok m)
    (hj : j < r.columns.length)
    (hprev : ∀ l, l < j → ∃ v, cellDecode r l = .ok v)
    (hraw : r.try_get_raw j = .ok rv)
    (hnull : rv.isNull = false)
    (hunsup : rv.typeName ∉ supportedTypeNames) :
    row_value_to_json rv = .error ("Unsupported type: " ++ rv.typeName) ∧
    rows_to_json (pre ++ r :: post) = .error ("Unsupported type: " ++ rv.typeName) := by
  have hval := unsupported_hard_error rv hnull hunsup
  refine ⟨hval, ?_⟩
  have hcell : cellDecode r j = .error ("Unsupported type: " ++ rv.typeName) := by
    unfold cellDecode
    simp only [hraw]
    exact hval
  have hrow : assembleRow r = .error ("Unsupported type: " ++ rv.typeName) := by
    apply assembleCols_abort r r.columns 0 [] j _ hj
    · intro l hl
      obtain ⟨v, hv⟩ := hprev l hl
      exact ⟨v, by rw [Nat.zero_add]; exact hv⟩
    · rw [Nat.zero_add]
      exact hcell
  rw [rows_to_json_ne_nil _ (by cases pre <;> simp)]
  exact rowsLoop_abort pre post r _ hpre hrow

theorem claim1_unsupported_type_aborts_witness :
    row_value_to_json geometryValue = .error "Unsupported type: GEOMETRY" ∧
    rows_to_json [⟨[⟨"a"⟩], [.ok varcharValue]⟩, ⟨[⟨"g"⟩], [.ok geometryValue]⟩]
      = .error "Unsupported type: GEOMETRY" :=
  claim1_unsupported_type_aborts
    [⟨[⟨"a"⟩], [.ok varcharValue]⟩] [] ⟨[⟨"g"⟩], [.ok geometryValue]⟩ 0 geometryValue
    (by
      intro p hp
      rw [List.mem_singleton] at hp
      subst hp
      exact ⟨_, rfl⟩)
    (by decide)
    (fun l hl => absurd hl (Nat.not_lt_zero l))
    rfl rfl (by decide)

/-- C3: for a recognized type name whose consulted typed decode fails, the
result is Ok JSON null (not an error), and the column loop simply inserts
null and continues with the rest of the row. -/
theorem claim3_soft_failure_isolated (rv : MySqlValueRef) (hnull : rv.isNull = false)
    (hsup : rv.typeName ∈ supportedTypeNames)
    (hfail : consultedDecodeFailed rv.typeName rv.payload = true) :
    row_value_to_json rv = .ok .null ∧
    ∀ (r : MySqlRow) (c : Column) (cols : List Column) (i : Nat) (m : RowMap),
      r.try_get_raw i = .ok rv →
      assembleCols r (c :: cols) i m
        = assembleCols r cols (i + 1) (RowMap.insert m c.name .null) := by
  have h1 := soft_failure rv hnull hsup hfail
  refine ⟨h1, ?_⟩
  intro r c cols i m hraw
  rw [assembleCols_cons_eq]
  have hcell : cellDecode r i = .ok .null := by
    unfold cellDecode
    simp only [hraw]
    exact h1
  simp only [hcell]

theorem claim3_soft_failure_isolated_witness :
    row_value_to_json corruptIntValue = .ok .null ∧
    assembleCols ⟨[⟨"a"⟩, ⟨"b"⟩], [.ok corruptIntValue, .ok varcharValue]⟩
        [⟨"a"⟩, ⟨"b"⟩] 0 []
      = assembleCols ⟨[⟨"a"⟩, ⟨"b"⟩], [.ok corruptIntValue, .ok varcharValue]⟩
        [⟨"b"⟩] 1 (RowMap.insert [] "a" .null) :=
  ⟨(claim3_soft_failure_isolated corruptIntValue rfl (by decide) rfl).1,
   (claim3_soft_failure_isolated corruptIntValue rfl (by decide) rfl).2
     ⟨[⟨"a"⟩, ⟨"b"⟩], [.ok corruptIntValue, .ok varcharValue]⟩ ⟨"a"⟩ [⟨"b"⟩] 0 [] rfl⟩

/-- C4: non-null blob-category values whose payload decodes as bytes yield
a JSON array of numbers, one per byte, in byte order, each in 0..255. -/
theorem claim4_blob_byte_array (rv : MySqlValueRef) (hnull : rv.isNull = false)
    (hname : rv.typeName ∈ blobTypeNames) (bs : List (Fin 256))
    (hdec : rv.payload.decodeBytes = some bs) :
    row_value_to_json rv = .ok (.arr (bs.map byteToJson)) ∧
    ∀ b ∈ bs, byteToJson b = .num (.uint b.val) ∧ b.val ≤ 255 := by
  obtain ⟨tn, nl, p⟩ := rv
  have hnl : nl = false := hnull
  subst hnl
  constructor
  · rw [blob_branch_eq tn hname p, show p.decodeBytes = some bs from hdec]
    rfl
  · intro b _
    exact ⟨rfl, Nat.le_of_lt_succ b.isLt⟩

theorem claim4_blob_byte_array_witness :
    row_value_to_json blobValue
      = .ok (.arr [.num (.uint 0), .num (.uint 255), .num (.uint 16)]) ∧
    (byteToJson 255 = .num (.uint (255 : Fin 256).val) ∧ (255 : Fin 256).val ≤ 255) :=
  ⟨(claim4_blob_byte_array blobValue rfl (by decide) [0, 255, 16] rfl).1,
   (claim4_blob_byte_array blobValue rfl (by decide) [0, 255, 16] rfl).2
     255 (by simp)⟩

/-- C5: a non-null JSON-typed value is embedded directly as the parsed
JSON value, never re-encoded as a string; a failed parse degrades to the
default JSON value, which is null. -/
theorem claim5_json_passthrough (rv : MySqlValueRef) (hnull : rv.isNull = false)
    (hname : rv.typeName = "JSON") :
    (∀ j, rv.payload.decodeJson = some j → row_value_to_json rv = .ok j) ∧
    (rv.payload.decodeJson = none → row_value_to_json rv = .ok .null) := by
  obtain ⟨tn, nl, p⟩ := rv
  have hnl : nl = false := hnull
  subst hnl
  have htn : tn = "JSON" := hname
  subst htn
  constructor
  · intro j hj
    rw [json_branch_eq p, show p.decodeJson = some j from hj]
    rfl
  · intro hj
    rw [json_branch_eq p, show p.decodeJson = none from hj]
    rfl

theorem claim5_json_passthrough_witness :
    row_value_to_json jsonObjectValue = .ok (.obj [("a", .num (.int 1))]) ∧
    row_value_to_json jsonCorruptValue = .ok .null :=
  ⟨(claim5_json_passthrough jsonObjectValue rfl rfl).1 (.obj [("a", .num (.int 1))]) rfl,
   (claim5_json_passthrough jsonCorruptValue rfl rfl).2 rfl⟩

/-- C6: recognized signed-integer types round-trip any representable i64
exactly; unsigned/year types round-trip any representable u64 exactly. -/
theorem claim6_integer_roundtrip (rv : MySqlValueRef) (hnull : rv.isNull = false) :
    (∀ v : Int, rv.typeName ∈ signedIntTypeNames → rv.payload.decodeI64 = some v →
       -(2 ^ 63) ≤ v → v < 2 ^ 63 → row_value_to_json rv = .ok (.num (.int v))) ∧
    (∀ n : Nat, rv.typeName ∈ unsignedIntTypeNames → rv.payload.decodeU64 = some n →
       n < 2 ^ 64 → row_value_to_json rv = .ok (.num (.uint n))) := by
  obtain ⟨tn, nl, p⟩ := rv
  have hnl : nl = false := hnull
  subst hnl
  constructor
  · intro v hmem hdec _ _
    rw [int_branch_eq tn hmem p, show p.decodeI64 = some v from hdec]
    rfl
  · intro n hmem hdec _
    rw [uint_branch_eq tn hmem p, show p.decodeU64 = some n from hdec]
    rfl

theorem claim6_integer_roundtrip_witness :
    row_value_to_json bigintMinValue = .ok (.num (.int (-9223372036854775808))) ∧
    row_value_to_json ubigintMaxValue = .ok (.num (.uint 18446744073709551615)) :=
  ⟨(claim6_integer_roundtrip bigintMinValue rfl).1 (-9223372036854775808)
     (by decide) rfl (by decide) (by decide),
   (claim6_integer_roundtrip ubigintMaxValue rfl).2 18446744073709551615
     (by decide) rfl (by decide)⟩

theorem jsonFinite_decodeOr {α : Type} (o : Option α) (f : α → JsonValue)
    (hf : ∀ a, jsonFinite (f a) = true) : jsonFinite (decodeOr o f) = true := by
  cases o with
  | none => rfl
  | some a => exact hf a

theorem bytesArrFinite (bs : List (Fin 256)) :
    jsonFinite (.arr (List.map byteToJson bs)) = true := by
  show jsonListFinite (List.map byteToJson bs) = true
  induction bs with
  | nil => rfl
  | cons b bs ih =>
    show (jsonFinite (byteToJson b) && jsonListFinite (List.map byteToJson bs)) = true
    rw [ih]
    rfl

/-- C7: the decoder never outputs a NaN or Infinity number: every value it
returns is finite throughout (given that a parsed JSON payload is itself
free of non-finite numbers, which serde_json numbers guarantee); in
particular the FLOAT and DOUBLE branches filter non-finite floats to
null. -/
theorem claim7_no_nonfinite_numbers (rv : MySqlValueRef) (v : JsonValue)
    (hjson : ∀ j, rv.payload.decodeJson = some j → jsonFinite j = true)
    (h : row_value_to_json rv = .ok v) :
    jsonFinite v = true := by
  unfold row_value_to_json at h
  by_cases hnull : rv.isNull
  · rw [if_pos hnull] at h
    have hv : JsonValue.null = v := Except.ok.inj h
    subst hv
    rfl
  · rw [if_neg hnull] at h
    split at h
    all_goals first
      | exact Except.noConfusion h
      | (have hv := Except.ok.inj h
         subst hv
         first
           | rfl
           | (apply jsonFinite_decodeOr
              intro a
              first
                | rfl
                | (cases a <;> rfl)
                | exact bytesArrFinite a)
           | (cases hX : rv.payload.decodeJson with
              | none => rfl
              | some j => exact hjson j hX))

theorem claim7_no_nonfinite_numbers_witness :
    jsonFinite .null = true :=
  claim7_no_nonfinite_numbers doubleNanValue .null
    (fun _ hj => Option.noConfusion hj) rfl

/-- C9: in every row map produced by rows_to_json, a name occurring among
that row's columns has exactly one entry (names absent have none), and
when columns share a name the entry's value is the decoded value of the
last (later) column with that name. -/
theorem claim9_duplicate_columns_last_wins (rows : List MySqlRow) (out : List RowMap)
    (h : rows_to_json rows = .ok out) (k : Nat) (hk : k < rows.length) (n : String) :
    ∃ hk2 : k < out.length,
      (List.countP (fun p => p.1 = n) (out.get ⟨k, hk2⟩)
         = if (rows.get ⟨k, hk⟩).columns.any (fun c => c.name = n) then 1 else 0) ∧
      (∀ (cs1 : List Column) (c : Column) (cs2 : List Column),
         (rows.get ⟨k, hk⟩).columns = cs1 ++ c :: cs2 → c.name = n →
         (∀ d ∈ cs2, d.name ≠ n) →
         ∃ v, cellDecode (rows.get ⟨k, hk⟩) cs1.length = .ok v ∧
           RowMap.find (out.get ⟨k, hk2⟩) n = some v) := by
  have hloop := rows_to_json_ok_loop rows out h
  obtain ⟨hlen, hget⟩ := rowsLoop_length_get rows out hloop
  have hk2 : k < out.length := by rw [hlen]; exact hk
  have hrow : assembleRow (rows.get ⟨k, hk⟩) = .ok (out.get ⟨k, hk2⟩) := hget k hk hk2
  have INV := assembleCols_invariant (rows.get ⟨k, hk⟩) (rows.get ⟨k, hk⟩).columns 0 []
    (out.get ⟨k, hk2⟩) hrow n
  refine ⟨hk2, ?_, ?_⟩
  · cases hl : lastNameIdx n (rows.get ⟨k, hk⟩).columns with
    | none =>
      obtain ⟨_, hcount⟩ := INV.1 hl
      have hany : (rows.get ⟨k, hk⟩).columns.any (fun c => c.name = n) = false := by
        rw [List.any_eq_false]
        intro c hc
        simpa using (lastNameIdx_eq_none_iff n _).mp hl c hc
      rw [hcount, hany]
      rfl
    | some j =>
      obtain ⟨v, _, _, hcount⟩ := INV.2 j hl
      have hany : (rows.get ⟨k, hk⟩).columns.any (fun c => c.name = n) = true := by
        obtain ⟨c, hc, hcn⟩ := lastNameIdx_some_mem n _ j hl
        exact List.any_eq_true.mpr ⟨c, hc, by simp [hcn]⟩
      rw [hcount, hany]
      rfl
  · intro cs1 c cs2 hcols hcn hcs2
    have hl : lastNameIdx n (rows.get ⟨k, hk⟩).columns = some cs1.length := by
      rw [hcols]
      exact lastNameIdx_append_last n cs1 cs2 c hcn hcs2
    obtain ⟨v, hv, hfind, _⟩ := INV.2 cs1.length hl
    refine ⟨v, ?_, hfind⟩
    rw [Nat.zero_add] at hv
    exact hv

theorem claim9_duplicate_columns_last_wins_witness :
    ∃ hk2 : 0 < ([[("a", JsonValue.num (.int 2))]] : List RowMap).length,
      (List.countP (fun p => p.1 = "a")
          (([[("a", JsonValue.num (.int 2))]] : List RowMap).get ⟨0, hk2⟩)
         = if ([dupRow].get ⟨0, by decide⟩).columns.any (fun c => c.name = "a")
             then 1 else 0) ∧
      (∀ (cs1 : List Column) (c : Column) (cs2 : List Column),
         ([dupRow].get ⟨0, by decide⟩).columns = cs1 ++ c :: cs2 → c.name = "a" →
         (∀ d ∈ cs2, d.name ≠ "a") →
         ∃ v, cellDecode ([dupRow].get ⟨0, by decide⟩) cs1.length = .ok v ∧
           RowMap.find ((([[("a", JsonValue.num (.int 2))]]) : List RowMap).get ⟨0, hk2⟩) "a"
             = some v) :=
  claim9_duplicate_columns_last_wins [dupRow] [[("a", JsonValue.num (.int 2))]]
    rfl 0 (by decide) "a"

/-- C10: the dispatch decodes to a byte array exactly for the four names
"TINIYBLOB" (transposed spelling), "MEDIUMBLOB", "BLOB", "LONGBLOB"; the
conventional spelling "TINYBLOB" has no table entry and yields the
unsupported-type hard error. -/
theorem claim10_blob_name_set :
    (∀ s : String,
       (∀ (p : Payload) (bs : List (Fin 256)), p.decodeBytes = some bs →
          row_value_to_json ⟨s, false, p⟩ = .ok (.arr (bs.map byteToJson)))
       ↔ s ∈ blobTypeNames) ∧
    (∀ p : Payload, row_value_to_json ⟨"TINYBLOB", false, p⟩
       = .error "Unsupported type: TINYBLOB") := by
  constructor
  · intro s
    constructor
    · intro hbehave
      by_contra hnot
      have hprobe := hbehave probePayload [0] rfl
      by_cases hsup : s ∈ supportedTypeNames
      · have hfail : consultedDecodeFailed s probePayload = true := by
          simp only [supportedTypeNames, List.mem_cons, List.not_mem_nil, or_false] at hsup
          rcases hsup with rfl | rfl | rfl | rfl | rfl | rfl | rfl | rfl | rfl | rfl
            | rfl | rfl | rfl | rfl | rfl | rfl | rfl | rfl | rfl | rfl | rfl | rfl
            | rfl | rfl | rfl | rfl | rfl | rfl | rfl | rfl | rfl
          all_goals first
            | rfl
            | exact absurd (by decide) hnot
        have hnil := soft_failure ⟨s, false, probePayload⟩ rfl hsup hfail
        rw [hnil] at hprobe
        exact JsonValue.noConfusion (Except.ok.inj hprobe)
      · have herr := unsupported_hard_error ⟨s, false, probePayload⟩ rfl hsup
        rw [herr] at hprobe
        exact Except.noConfusion hprobe
    · intro hmem p bs hdec
      rw [blob_branch_eq s hmem p, show p.decodeBytes = some bs from hdec]
      rfl
  · intro p
    exact unsupported_hard_error ⟨"TINYBLOB", false, p⟩ rfl
      (show ("TINYBLOB" : String) ∉ supportedTypeNames from by decide)

theorem claim10_blob_name_set_witness :
    row_value_to_json ⟨"TINIYBLOB", false, tiniyblobValue⟩
      = .ok (.arr [.num (.uint 16)]) ∧
    row_value_to_json ⟨"TINYBLOB", false, emptyPayload⟩
      = .error "Unsupported type: TINYBLOB" :=
  ⟨(claim10_blob_name_set.1 "TINIYBLOB").mpr (by decide) tiniyblobValue [16] rfl,
   claim10_blob_name_set.2 emptyPayload⟩

end SqlxToJson

